import Mathlib

/-!
Verification of the Hilla repository: a shallow embedding of the
`react-crud` AutoGrid data-provider and header-filter logic
(`packages/ts/react-crud/src` — the grid data provider, the sort mapping,
the header property filter and the filter-propagation effect), of the CRUD
filter DTO hierarchy (`dev.hilla.crud.filter`), of
`BackbonePlugin.execute`, of `TypeArgumentModel`, and of
`EndpointsValidator.process`, together with theorems checking the
specification's statements about them.
-/

namespace Hilla

/-! ## Filter DTOs

The Java hierarchy lives in `dev.hilla.crud.filter` (`Filter`, `OrFilter`,
`AndFilter`, `PropertyStringFilter`); the TypeScript side uses generated
DTO types carrying a `@type` JSON discriminator.
-/

/-- `Matcher` enum of the `PropertyStringFilter` DTO. -/
inductive Matcher
  | CONTAINS
  | EQUALS
  | GREATER_THAN
  | LESS_THAN
  deriving DecidableEq, Repr

/-- The `PropertyStringFilter` DTO: a filter on one property with a string
value (its `@type` discriminator is carried by the `FilterUnion`
constructor below). -/
structure PropertyStringFilter where
  propertyId : String
  filterValue : String
  matcher : Matcher
  deriving DecidableEq, Repr

/-- Modelled from the spec: the generated TypeScript filter DTO union
(`FilterUnion`, imported by the AutoGrid source but generated code not in
the repository snapshot). It is generated from the Java
`dev.hilla.crud.filter` hierarchy, one constructor per Java `Filter`
subtype; the constructor stands for the `@type` discriminator literal of
the corresponding DTO (`AndFilter` with `@type` `and`, `OrFilter` with
`@type` `or`, `PropertyStringFilter` with `@type` `propertyString` — the
`and` and `propertyString` literals appear directly in the AutoGrid and
test-view sources). -/
inductive FilterUnion
  | and (children : List FilterUnion)
  | or (children : List FilterUnion)
  | propertyString (filter : PropertyStringFilter)
  deriving Repr

/-- The `@type` JSON discriminator value a TypeScript filter object
carries, per the generated DTO literals. -/
def FilterUnion.atType : FilterUnion → String
  | .and _ => "and"
  | .or _ => "or"
  | .propertyString _ => "propertyString"

/-- The TypeScript `AndFilter` DTO (`@type` `and`): a record with a
`children` array. -/
structure AndFilter where
  children : List FilterUnion
  deriving Repr

/-- Viewing a TypeScript `AndFilter` record as a member of the
`FilterUnion` discriminated union (the identity in TypeScript). -/
def AndFilter.toFilterUnion (f : AndFilter) : FilterUnion :=
  .and f.children

/-- The Java `Filter` subtypes declared by the `@JsonSubTypes` annotation
on `dev.hilla.crud.filter.Filter`. -/
inductive JavaFilterSubtype
  | orFilter
  | andFilter
  | propertyStringFilter
  deriving DecidableEq, Repr

/-- The JSON type-discriminator name each Java `Filter` subtype is
declared with in the `@JsonSubTypes` annotation on `Filter.java`
(`@JsonTypeInfo(use = Id.NAME, include = As.PROPERTY)`). -/
def javaJsonTypeName : JavaFilterSubtype → String
  | .orFilter => "or"
  | .andFilter => "and"
  | .propertyStringFilter => "propertyString"

/-! ## Sorting and paging types

`Sort`, `Order` and `Pageable` are the mapped types sent to the Java
service; `GridSorterDefinition` is the grid's own sort state
(`params.sortOrders`), whose `direction` may be `asc`, `desc` or null.
-/

/-- A grid sorter direction (`asc` or `desc`); the grid may also report
`null`, modelled by `Option`. -/
inductive GridSortDirection
  | asc
  | desc
  deriving DecidableEq, Repr

/-- One entry of `params.sortOrders` in a grid data-provider request. -/
structure GridSorterDefinition where
  path : String
  direction : Option GridSortDirection
  deriving DecidableEq, Repr

/-- `org.springframework.data.domain.Sort.Direction`. -/
inductive Direction
  | ASC
  | DESC
  deriving DecidableEq, Repr

/-- One order of the mapped `Sort` type sent to the service. -/
structure Order where
  property : String
  direction : Direction
  ignoreCase : Bool
  deriving DecidableEq, Repr

/-- The mapped `Sort` type: a list of orders (`Sort` is a Lean keyword,
hence the DTO suffix). -/
structure SortDTO where
  orders : List Order
  deriving DecidableEq, Repr

/-- The mapped `Pageable` type sent to `ListService.list`. -/
structure Pageable where
  pageNumber : Nat
  pageSize : Nat
  sort : SortDTO
  deriving DecidableEq, Repr

/-- The part of `GridDataProviderParams` that `createDataProvider`
reads: the page number, page size and sort orders of the request. -/
structure GridDataProviderParams where
  page : Nat
  pageSize : Nat
  sortOrders : List GridSorterDefinition
  deriving DecidableEq, Repr

/-! ## createDataProvider (crud.d.ts)

The data provider built by `createDataProvider` maps the grid request to
a `Pageable`, calls `service.list(req, filter.current)` once, computes
the size to report, and invokes the grid callback with the items and
that size. The embedding returns, besides the callback arguments, the
list of `service.list` calls made (pageable and filter of each). -/

/-- The `sort` object `createDataProvider` builds from
`params.sortOrders`: orders with a null direction are dropped, the rest
are mapped to `{ property: path, direction: asc ? ASC : DESC,
ignoreCase: false }`. -/
def computeSort (sortOrders : List GridSorterDefinition) : SortDTO :=
  ⟨(sortOrders.filter fun order => order.direction != none).map fun order =>
    { property := order.path
      direction := if order.direction == some .asc then .ASC else .DESC
      ignoreCase := false }⟩

/-- The `req` pageable `createDataProvider` sends to `service.list`. -/
def dataProviderRequest (params : GridDataProviderParams) : Pageable :=
  { pageNumber := params.page
    pageSize := params.pageSize
    sort := computeSort params.sortOrders }

/-- The observable outcome of one data-provider invocation: the
`service.list` calls made and the arguments passed to the grid
callback. -/
structure DataProviderResult (TItem : Type) where
  listCalls : List (Pageable × Option FilterUnion)
  callbackItems : List TItem
  callbackSize : Option Nat
  deriving Repr

/-- One invocation of the data provider returned by
`createDataProvider`. `listFn` stands for `service.list` (the resolved
promise value), `filterCurrent` for `filter.current`, and `cacheSize`
for the grid's internal `_cache.size`. -/
def createDataProviderCall {TItem : Type}
    (listFn : Pageable → Option FilterUnion → List TItem)
    (filterCurrent : Option FilterUnion)
    (cacheSize : Option Nat)
    (params : GridDataProviderParams) : DataProviderResult TItem :=
  let req := dataProviderRequest params
  let items := listFn req filterCurrent
  let size : Option Nat :=
    if items.length = params.pageSize then
      let s := (params.page + 1) * params.pageSize + 1
      match cacheSize with
      | some cs => if s < cs then none else some s
      | none => some s
    else
      some (params.page * params.pageSize + items.length)
  { listCalls := [(req, filterCurrent)]
    callbackItems := items
    callbackSize := size }

/-! ## AutoGrid header filter state (crud.d.ts) -/

/-- JavaScript `Array.prototype.findIndex`, with `none` for `-1`. -/
def findIndex {α : Type} (p : α → Bool) : List α → Option Nat
  | [] => none
  | x :: xs => if p x then some 0 else (findIndex p xs).map (· + 1)

/-- The `propertyId` read off a filter by the TypeScript cast
`(f as PropertyStringFilter).propertyId`: `undefined` (here `none`) when
the filter is not a `PropertyStringFilter`. -/
def FilterUnion.propertyIdOpt : FilterUnion → Option String
  | .propertyString pf => some pf.propertyId
  | _ => none

/-- `setHeaderPropertyFilter` of `AutoGrid`: looks up the child with the
incoming filter's `propertyId`; an empty `filterValue` deletes it (if
present), otherwise the child is replaced in place (if present) or the
filter is appended. -/
def setHeaderPropertyFilter (internalFilter : AndFilter)
    (propertyFilter : PropertyStringFilter) : AndFilter :=
  let filterIndex := findIndex
    (fun f => f.propertyIdOpt == some propertyFilter.propertyId)
    internalFilter.children
  if propertyFilter.filterValue = "" then
    match filterIndex with
    | some i => ⟨internalFilter.children.eraseIdx i⟩
    | none => internalFilter
  else
    match filterIndex with
    | some i => ⟨internalFilter.children.set i (.propertyString propertyFilter)⟩
    | none => ⟨internalFilter.children ++ [.propertyString propertyFilter]⟩

/-- The initial internal filter of `AutoGrid`:
`{ '@type': 'and', children: [] }`. -/
def initialInternalFilter : AndFilter := ⟨[]⟩

/-- The filter-related state `AutoGrid` keeps around its grid element:
the `dataProviderFilter` ref read by every data-provider call, and
whether `grid.clearCache()` has been invoked by the last filter
update. -/
structure AutoGridFilterState where
  dataProviderFilter : Option FilterUnion
  cacheCleared : Bool
  deriving Repr

/-- The `useEffect` of `AutoGrid` that runs when `experimentalFilter`,
`internalFilter` or `refreshTrigger` changes: when the grid element
exists it sets `dataProviderFilter.current` to
`experimentalFilter ?? internalFilter` and clears the grid cache;
otherwise it does nothing. -/
def updateFilterEffect (experimentalFilter : Option FilterUnion)
    (internalFilter : AndFilter) (gridExists : Bool)
    (s : AutoGridFilterState) : AutoGridFilterState :=
  if gridExists then
    { dataProviderFilter := some (experimentalFilter.getD internalFilter.toFilterUnion)
      cacheCleared := true }
  else s

/-- The invariant of the AutoGrid internal header filter: every child is
a `PropertyStringFilter` with a non-empty value, and no two children
share a `propertyId`. -/
def FilterUnion.headerChildOk : FilterUnion → Bool
  | .propertyString pf => pf.filterValue != ""
  | _ => false

/-- The header-filter invariant on an `AndFilter`: all children pass
`headerChildOk` and the children's property ids are pairwise
distinct. -/
def headerFilterInvariant (f : AndFilter) : Prop :=
  (∀ c ∈ f.children, c.headerChildOk = true) ∧
  (f.children.map FilterUnion.propertyIdOpt).Nodup

instance (f : AndFilter) : Decidable (headerFilterInvariant f) :=
  inferInstanceAs (Decidable ((∀ c ∈ f.children, c.headerChildOk = true) ∧
    (f.children.map FilterUnion.propertyIdOpt).Nodup))

/-! ## BackbonePlugin (parser-jvm-plugin-backbone) -/

/-- The parser's shared storage as seen by `BackbonePlugin.execute`: it
holds the single OpenAPI model (abstracted as a value of type `α`). -/
structure SharedStorage (α : Type) where
  openAPI : α

/-- One observable update step a backbone plugin run may perform on the
OpenAPI model. -/
inductive BackboneStep (γ : Type)
  | processEndpoints (endpoints : List γ)
  | processEntities (entities : List γ)
  deriving Repr

/-- `BackbonePlugin.execute`: obtains the OpenAPI model from the shared
storage, runs `new EndpointProcessor(endpoints, model).process()` and
then `new EntityProcessor(entities, model).process()`. The in-place
mutation of the model is embedded as state passing, with the two
processors abstracted as functions. -/
def backboneExecute {γ α : Type}
    (endpointProcess entityProcess : List γ → α → α)
    (endpoints entities : List γ) (storage : SharedStorage α) : α :=
  let model := storage.openAPI
  let model := endpointProcess endpoints model
  entityProcess entities model

/-- Interpreter for a list of backbone update steps over the OpenAPI
model. -/
def runBackboneSteps {γ α : Type}
    (endpointProcess entityProcess : List γ → α → α)
    (model : α) : List (BackboneStep γ) → α
  | [] => model
  | .processEndpoints eps :: rest =>
    runBackboneSteps endpointProcess entityProcess
      (endpointProcess eps model) rest
  | .processEntities ets :: rest =>
    runBackboneSteps endpointProcess entityProcess
      (entityProcess ets model) rest

/-! ## TypeArgumentModel (parser-jvm-core) -/

/-- `io.github.classgraph.TypeArgument.Wildcard`. -/
inductive TypeArgumentWildcard
  | NONE
  | ANY
  | EXTENDS
  | SUPER
  deriving DecidableEq, Repr

/-- A bytecode-scanned `io.github.classgraph.TypeArgument` origin
(abstracted to its wildcard). -/
structure TypeArgument where
  wildcard : TypeArgumentWildcard
  deriving Repr

/-- A reflected `java.lang.reflect.AnnotatedType` origin (abstracted to
its type name). -/
structure AnnotatedType where
  typeName : String
  deriving Repr

/-- The parent `Model` a type argument hangs off (abstracted). -/
structure ParentModel where
  name : String
  deriving Repr

/-- The origin a `TypeArgumentModel` was built from: a bytecode-scanned
type argument (source model) or a reflected annotated type (reflection
model). -/
inductive TypeArgumentOrigin
  | source (origin : TypeArgument)
  | reflection (origin : AnnotatedType)
  deriving Repr

/-- A constructed `TypeArgumentModel`: its origin and its (possibly
null) parent model. -/
structure TypeArgumentModel where
  origin : TypeArgumentOrigin
  parent : Option ParentModel
  deriving Repr

/-- The default method `TypeArgumentModel.isTypeArgument()`. -/
def TypeArgumentModel.isTypeArgument (_ : TypeArgumentModel) : Bool :=
  true

/-- The exception `java.util.Objects.requireNonNull` throws on null. -/
inductive NullPointerException
  | mk
  deriving DecidableEq, Repr

/-- `java.util.Objects.requireNonNull`, with Java null as `none`. -/
def requireNonNull {β : Type} : Option β → Except NullPointerException β
  | none => .error .mk
  | some x => .ok x

/-- The static factory `TypeArgumentModel.of(TypeArgument origin, Model
parent)`: builds a source model, requiring both arguments non-null. -/
def TypeArgumentModel.ofSource (origin : Option TypeArgument)
    (parent : Option ParentModel) :
    Except NullPointerException TypeArgumentModel := do
  let o ← requireNonNull origin
  let p ← requireNonNull parent
  pure ⟨.source o, some p⟩

/-- The static factory `TypeArgumentModel.of(AnnotatedType origin, Model
parent)`: builds a reflection model, requiring only the origin
non-null. -/
def TypeArgumentModel.ofReflection (origin : Option AnnotatedType)
    (parent : Option ParentModel) :
    Except NullPointerException TypeArgumentModel := do
  let o ← requireNonNull origin
  pure ⟨.reflection o, parent⟩

/-! ## EndpointsValidator (endpoint) -/

/-- `jakarta.servlet.ServletException` (abstracted). -/
inductive ServletException
  | mk
  deriving DecidableEq, Repr

/-- A class handed to `EndpointsValidator.process`, abstracted to
whether it carries the `@Endpoint` annotation. -/
structure LoadedClass where
  hasEndpointAnnotation : Bool
  deriving DecidableEq, Repr

/-- Modelled from the spec: `EndpointsValidator.process` (the
`dev.hilla.startup.EndpointsValidator` class itself is not in the
snapshot; only its test is). Per the spec's endpoint-validator role and
the test's fixture, `process(classes, servletContext)` returns normally
when `classes` is null (CDI environment) or contains no `@Endpoint`
class, and throws `ServletException` when an `@Endpoint` class is
present but the configured class to check cannot be loaded from the
classpath. -/
def endpointsValidatorProcess (classes : Option (List LoadedClass))
    (classToCheckLoadable : Bool) : Except ServletException Unit :=
  match classes with
  | none => .ok ()
  | some cs =>
    if cs.any (fun c => c.hasEndpointAnnotation) then
      if classToCheckLoadable then .ok () else .error .mk
    else .ok ()

/-! ## Helper lemmas -/

/-- `findIndex` misses exactly when no element matches. -/
theorem findIndex_eq_none_iff {α : Type} (p : α → Bool) (l : List α) :
    findIndex p l = none ↔ ∀ a ∈ l, p a = false := by
  induction l with
  | nil => simp [findIndex]
  | cons x xs ih =>
    by_cases hx : p x <;> simp [findIndex, hx, ih]

/-- The sort mapping of `createDataProvider`, characterised as a single
`filterMap`: null-direction orders are dropped and the rest is mapped,
preserving relative order. -/
theorem computeSort_orders_eq_filterMap (l : List GridSorterDefinition) :
    (computeSort l).orders = l.filterMap fun order =>
      match order.direction with
      | none => none
      | some d => some
          { property := order.path
            direction := if d = .asc then Direction.ASC else Direction.DESC
            ignoreCase := false } := by
  induction l with
  | nil => rfl
  | cons o t ih =>
    simp only [computeSort] at ih ⊢
    cases h : o.direction with
    | none => simpa [List.filter_cons, List.filterMap_cons, h] using ih
    | some d =>
      cases d <;> simpa [List.filter_cons, List.filterMap_cons, h] using ih

/-! ## Claim theorems (part 1) -/

/-- Claim C1: for every request the grid issues to the AutoGrid data
provider, the provider calls the service's list operation exactly once,
with a pageable whose `pageNumber` equals the request's page and whose
`pageSize` equals the request's pageSize, and resolves the grid callback
with exactly the array of items the service returned, unchanged and in
order. -/
theorem createDataProvider_calls_list_once {TItem : Type}
    (listFn : Pageable → Option FilterUnion → List TItem)
    (filterCurrent : Option FilterUnion) (cacheSize : Option Nat)
    (params : GridDataProviderParams) :
    ∃ req : Pageable,
      (createDataProviderCall listFn filterCurrent cacheSize params).listCalls
        = [(req, filterCurrent)] ∧
      req.pageNumber = params.page ∧
      req.pageSize = params.pageSize ∧
      (createDataProviderCall listFn filterCurrent cacheSize params).callbackItems
        = listFn req filterCurrent :=
  ⟨dataProviderRequest params, rfl, rfl, rfl, rfl⟩

/-- Claim C2: the sort sent to the service contains exactly those grid
sort orders with a non-null direction, in the same relative order, each
mapped to an order with `property` the grid order's path, direction
`ASC` for `asc` and `DESC` otherwise, and `ignoreCase` always false. -/
theorem dataProviderRequest_sort_orders (params : GridDataProviderParams) :
    (dataProviderRequest params).sort.orders = params.sortOrders.filterMap fun order =>
      match order.direction with
      | none => none
      | some d => some
          { property := order.path
            direction := if d = .asc then Direction.ASC else Direction.DESC
            ignoreCase := false } :=
  computeSort_orders_eq_filterMap params.sortOrders

/-- Claim C3: when the filter effect runs while the grid element exists,
the data-provider filter reference becomes the experimental filter when
defined and the internal header `AndFilter` otherwise, the grid cache is
cleared, and every `service.list` call of a subsequent data-provider
invocation receives the current value of that reference. -/
theorem autoGrid_filter_effect {TItem : Type}
    (experimentalFilter : Option FilterUnion) (internalFilter : AndFilter)
    (s : AutoGridFilterState)
    (listFn : Pageable → Option FilterUnion → List TItem)
    (cacheSize : Option Nat) (params : GridDataProviderParams) :
    (updateFilterEffect experimentalFilter internalFilter true s).dataProviderFilter
      = some (match experimentalFilter with
          | some e => e
          | none => FilterUnion.and internalFilter.children) ∧
    (updateFilterEffect experimentalFilter internalFilter true s).cacheCleared = true ∧
    (createDataProviderCall listFn
        (updateFilterEffect experimentalFilter internalFilter true s).dataProviderFilter
        cacheSize params).listCalls.map Prod.snd
      = [(updateFilterEffect experimentalFilter internalFilter true s).dataProviderFilter] := by
  refine ⟨?_, rfl, rfl⟩
  cases experimentalFilter <;> rfl

/-- Claim C5: the JSON type-discriminator names declared on the Java
`Filter` hierarchy are exactly the `@type` values the TypeScript filter
types produce: every TypeScript filter object's `@type` is a declared
Java name, and every declared Java name is produced by some TypeScript
filter object. -/
theorem filterTypeNames_match_java :
    (∀ f : FilterUnion, ∃ j : JavaFilterSubtype, f.atType = javaJsonTypeName j) ∧
    (∀ j : JavaFilterSubtype, ∃ f : FilterUnion, f.atType = javaJsonTypeName j) := by
  constructor
  · intro f
    cases f with
    | and _ => exact ⟨.andFilter, rfl⟩
    | or _ => exact ⟨.orFilter, rfl⟩
    | propertyString _ => exact ⟨.propertyStringFilter, rfl⟩
  · intro j
    cases j with
    | orFilter => exact ⟨.or [], rfl⟩
    | andFilter => exact ⟨.and [], rfl⟩
    | propertyStringFilter => exact ⟨.propertyString ⟨"", "", .CONTAINS⟩, rfl⟩

/-- Claim C6: `BackbonePlugin.execute` takes the single OpenAPI model
from the shared storage and updates it in exactly two steps in a fixed
order — first the endpoint processor over the whole endpoints
collection, then the entity processor over the whole entities
collection — producing no other output. -/
theorem backboneExecute_runs_two_steps {γ α : Type}
    (endpointProcess entityProcess : List γ → α → α)
    (endpoints entities : List γ) (storage : SharedStorage α) :
    backboneExecute endpointProcess entityProcess endpoints entities storage
      = runBackboneSteps endpointProcess entityProcess storage.openAPI
          [BackboneStep.processEndpoints endpoints,
           BackboneStep.processEntities entities] :=
  rfl

/-- Claim C7: `TypeArgumentModel` offers two constructions — a source
model requiring both origin and parent non-null, and a reflection model
requiring only the origin non-null — and every model produced by either
construction answers true to `isTypeArgument()`. -/
theorem typeArgumentModel_factories :
    (∀ (o : TypeArgument) (p : ParentModel), ∃ m : TypeArgumentModel,
        TypeArgumentModel.ofSource (some o) (some p) = .ok m ∧
        m.origin = .source o ∧ m.parent = some p) ∧
    (∀ p, TypeArgumentModel.ofSource none p = .error .mk) ∧
    (∀ o, TypeArgumentModel.ofSource (some o) none = .error .mk) ∧
    (∀ (o : AnnotatedType) (p : Option ParentModel), ∃ m : TypeArgumentModel,
        TypeArgumentModel.ofReflection (some o) p = .ok m ∧
        m.origin = .reflection o ∧ m.parent = p) ∧
    (∀ p, TypeArgumentModel.ofReflection none p = .error .mk) ∧
    (∀ m : TypeArgumentModel, m.isTypeArgument = true) :=
  ⟨fun o p => ⟨⟨.source o, some p⟩, rfl, rfl, rfl⟩,
   fun _ => rfl,
   fun _ => rfl,
   fun o p => ⟨⟨.reflection o, p⟩, rfl, rfl, rfl⟩,
   fun _ => rfl,
   fun _ => rfl⟩

/-- Claim C10: `EndpointsValidator.process` returns normally when the
class set is null (CDI environment) or contains no `@Endpoint` class,
and throws `ServletException` when an `@Endpoint` class is present but
the configured class to check is not loadable. -/
theorem endpointsValidator_process_behavior :
    (∀ loadable, endpointsValidatorProcess none loadable = .ok ()) ∧
    (∀ cs loadable, (∀ c ∈ cs, c.hasEndpointAnnotation = false) →
        endpointsValidatorProcess (some cs) loadable = .ok ()) ∧
    (∀ cs, (∃ c ∈ cs, c.hasEndpointAnnotation = true) →
        endpointsValidatorProcess (some cs) false = .error .mk) := by
  refine ⟨fun _ => rfl, ?_, ?_⟩
  · intro cs loadable h
    have hany : cs.any (fun c => c.hasEndpointAnnotation) = false := by
      rw [List.any_eq_false]
      intro c hc
      simp [h c hc]
    simp [endpointsValidatorProcess, hany]
  · intro cs h
    have hany : cs.any (fun c => c.hasEndpointAnnotation) = true := by
      rw [List.any_eq_true]
      obtain ⟨c, hc, hca⟩ := h
      exact ⟨c, hc, hca⟩
    simp [endpointsValidatorProcess, hany]

/-- Concrete instance of the `EndpointsValidator.process` behavior:
a CDI null set passes, a set without `@Endpoint` classes passes, a set
with an `@Endpoint` class and an unloadable check class throws. -/
theorem endpointsValidator_process_behavior_witness :
    endpointsValidatorProcess none false = .ok () ∧
    endpointsValidatorProcess (some [⟨false⟩]) false = .ok () ∧
    endpointsValidatorProcess (some [⟨true⟩]) false = .error .mk :=
  ⟨endpointsValidator_process_behavior.1 false,
   endpointsValidator_process_behavior.2.1 [⟨false⟩] false (by decide),
   endpointsValidator_process_behavior.2.2 [⟨true⟩] ⟨⟨true⟩, by simp, rfl⟩⟩

/-! ## Header-filter list lemmas -/

/-- Erasing at the index `findIndex` returns removes all matches when at
most one element matches. -/
theorem eraseIdx_findIndex_of_countP_le_one {α : Type} (p : α → Bool)
    (l : List α) (i : Nat) (hcount : l.countP p ≤ 1)
    (hfind : findIndex p l = some i) :
    l.eraseIdx i = l.filter fun a => !(p a) := by
  induction l generalizing i with
  | nil => simp [findIndex] at hfind
  | cons x xs ih =>
    by_cases hx : p x
    · have hi : i = 0 := by
        simp [findIndex, hx] at hfind
        omega
      subst hi
      have hzero : xs.countP p = 0 := by
        rw [List.countP_cons, if_pos hx] at hcount
        omega
      have hself : xs.filter (fun a => !(p a)) = xs := by
        rw [List.filter_eq_self]
        intro a ha
        have := List.countP_eq_zero.mp hzero a ha
        simp [this]
      simp [List.filter_cons, hx, hself]
    · obtain ⟨j, hj, hij⟩ : ∃ j, findIndex p xs = some j ∧ j + 1 = i := by
        simpa [findIndex, hx, Option.map_eq_some'] using hfind
      subst hij
      have hcount2 : xs.countP p ≤ 1 := by
        rw [List.countP_cons, if_neg hx] at hcount
        omega
      simp [List.eraseIdx_cons_succ, List.filter_cons, hx, ih j hcount2 hj]

/-- Setting at the index `findIndex` returns replaces exactly the
matching element when at most one element matches. -/
theorem set_findIndex_of_countP_le_one {α : Type} (p : α → Bool) (y : α)
    (l : List α) (i : Nat) (hcount : l.countP p ≤ 1)
    (hfind : findIndex p l = some i) :
    l.set i y = l.map fun a => if p a then y else a := by
  induction l generalizing i with
  | nil => simp [findIndex] at hfind
  | cons x xs ih =>
    by_cases hx : p x
    · have hi : i = 0 := by
        simp [findIndex, hx] at hfind
        omega
      subst hi
      have hzero : xs.countP p = 0 := by
        rw [List.countP_cons, if_pos hx] at hcount
        omega
      have hself : (xs.map fun a => if p a then y else a) = xs := by
        have h1 : ∀ a ∈ xs, (if p a then y else a) = id a := by
          intro a ha
          have := List.countP_eq_zero.mp hzero a ha
          simp [this]
        rw [List.map_congr_left h1, List.map_id]
      simp [List.set_cons_zero, List.map_cons, hx, hself]
    · obtain ⟨j, hj, hij⟩ : ∃ j, findIndex p xs = some j ∧ j + 1 = i := by
        simpa [findIndex, hx, Option.map_eq_some'] using hfind
      subst hij
      have hcount2 : xs.countP p ≤ 1 := by
        rw [List.countP_cons, if_neg hx] at hcount
        omega
      simp [List.set_cons_succ, List.map_cons, hx, ih j hcount2 hj]

/-- In a list whose image under `g` has no duplicates, at most one
element maps to any given value. -/
theorem countP_le_one_of_nodup_map {α β : Type} [BEq β] [LawfulBEq β]
    (g : α → β) (l : List α) (h : (l.map g).Nodup) (v : β) :
    l.countP (fun a => g a == v) ≤ 1 := by
  induction l with
  | nil => simp
  | cons x xs ih =>
    rw [List.map_cons, List.nodup_cons] at h
    rw [List.countP_cons]
    by_cases hx : g x = v
    · have hzero : xs.countP (fun a => g a == v) = 0 := by
        rw [List.countP_eq_zero]
        intro a ha hq
        have hav : g a = v := by simpa using hq
        have hmem : g a ∈ xs.map g := List.mem_map_of_mem g ha
        rw [hav, ← hx] at hmem
        exact h.1 hmem
      simp [hzero, hx]
    · have hfx : (g x == v) = false := by simp [hx]
      simp only [hfx, if_false, Nat.add_zero]
      exact ih h.2

/-- Under the header-filter invariant, at most one child matches any
given property id. -/
theorem countP_propertyId_le_one (f : AndFilter) (pid : String)
    (hinv : headerFilterInvariant f) :
    f.children.countP (fun c => c.propertyIdOpt == some pid) ≤ 1 :=
  countP_le_one_of_nodup_map FilterUnion.propertyIdOpt f.children hinv.2
    (some pid)

/-- Applying an empty filter value deletes the children carrying that
property id (under the invariant there is at most one). -/
theorem setHeaderPropertyFilter_empty_deletes (f : AndFilter)
    (pf : PropertyStringFilter) (hinv : headerFilterInvariant f)
    (hempty : pf.filterValue = "") :
    (setHeaderPropertyFilter f pf).children
      = f.children.filter fun c => !(c.propertyIdOpt == some pf.propertyId) := by
  unfold setHeaderPropertyFilter
  cases hfind : findIndex (fun c => c.propertyIdOpt == some pf.propertyId)
      f.children with
  | none =>
    have hall := (findIndex_eq_none_iff _ _).mp hfind
    have : f.children.filter
        (fun c => !(c.propertyIdOpt == some pf.propertyId)) = f.children := by
      rw [List.filter_eq_self]
      intro a ha
      simp [hall a ha]
    simp [hempty, this]
  | some i =>
    simp only [hempty, if_pos rfl]
    exact eraseIdx_findIndex_of_countP_le_one _ _ i
      (countP_propertyId_le_one f pf.propertyId hinv) hfind

/-- Applying a non-empty filter value for an already-filtered property
replaces that child in place (under the invariant). -/
theorem setHeaderPropertyFilter_replaces (f : AndFilter)
    (pf : PropertyStringFilter) (hinv : headerFilterInvariant f)
    (hne : pf.filterValue ≠ "")
    (hmem : ∃ c ∈ f.children, c.propertyIdOpt = some pf.propertyId) :
    (setHeaderPropertyFilter f pf).children
      = f.children.map fun c =>
          if c.propertyIdOpt == some pf.propertyId
          then .propertyString pf else c := by
  unfold setHeaderPropertyFilter
  cases hfind : findIndex (fun c => c.propertyIdOpt == some pf.propertyId)
      f.children with
  | none =>
    obtain ⟨c, hc, hcp⟩ := hmem
    have := (findIndex_eq_none_iff _ _).mp hfind c hc
    simp [hcp] at this
  | some i =>
    simp only [if_neg hne]
    exact set_findIndex_of_countP_le_one _ _ _ i
      (countP_propertyId_le_one f pf.propertyId hinv) hfind

/-- Applying a non-empty filter value for a not-yet-filtered property
appends the filter at the end. -/
theorem setHeaderPropertyFilter_appends (f : AndFilter)
    (pf : PropertyStringFilter) (hne : pf.filterValue ≠ "")
    (hnomem : ∀ c ∈ f.children, c.propertyIdOpt ≠ some pf.propertyId) :
    (setHeaderPropertyFilter f pf).children
      = f.children ++ [.propertyString pf] := by
  unfold setHeaderPropertyFilter
  have hfind : findIndex (fun c => c.propertyIdOpt == some pf.propertyId)
      f.children = none := by
    rw [findIndex_eq_none_iff]
    intro a ha
    simp [hnomem a ha]
  simp [hfind, hne]

/-- The header-filter invariant is preserved by every call to
`setHeaderPropertyFilter`. -/
theorem setHeaderPropertyFilter_preserves_invariant (f : AndFilter)
    (pf : PropertyStringFilter) (hinv : headerFilterInvariant f) :
    headerFilterInvariant (setHeaderPropertyFilter f pf) := by
  obtain ⟨hok, hnd⟩ := hinv
  by_cases hempty : pf.filterValue = ""
  · have hch := setHeaderPropertyFilter_empty_deletes f pf ⟨hok, hnd⟩ hempty
    constructor
    · intro c hc
      rw [hch] at hc
      exact hok c (List.mem_of_mem_filter hc)
    · rw [hch]
      exact List.Nodup.sublist (List.Sublist.map _ (List.filter_sublist _)) hnd
  · by_cases hmem : ∃ c ∈ f.children, c.propertyIdOpt = some pf.propertyId
    · have hch := setHeaderPropertyFilter_replaces f pf ⟨hok, hnd⟩ hempty hmem
      constructor
      · intro c hc
        rw [hch] at hc
        obtain ⟨a, ha, rfl⟩ := List.mem_map.mp hc
        by_cases hq : a.propertyIdOpt == some pf.propertyId
        · rw [if_pos hq]
          simpa [FilterUnion.headerChildOk] using hempty
        · rw [if_neg hq]
          exact hok a ha
      · rw [hch]
        have hsame : (f.children.map fun c =>
            if c.propertyIdOpt == some pf.propertyId
            then FilterUnion.propertyString pf else c).map
              FilterUnion.propertyIdOpt
            = f.children.map FilterUnion.propertyIdOpt := by
          rw [List.map_map]
          apply List.map_congr_left
          intro a ha
          by_cases hq : a.propertyIdOpt == some pf.propertyId
          · have hav : a.propertyIdOpt = some pf.propertyId := by
              simpa using hq
            simp only [Function.comp_apply, if_pos hq]
            exact hav.symm
          · simp only [Function.comp_apply, if_neg hq]
        rw [hsame]
        exact hnd
    · push_neg at hmem
      have hch := setHeaderPropertyFilter_appends f pf hempty hmem
      constructor
      · intro c hc
        rw [hch] at hc
        rcases List.mem_append.mp hc with h | h
        · exact hok c h
        · rw [List.mem_singleton.mp h]
          simpa [FilterUnion.headerChildOk] using hempty
      · rw [hch, List.map_append]
        rw [List.nodup_append]
        refine ⟨hnd, by simp, ?_⟩
        intro v hv hv2
        simp [FilterUnion.propertyIdOpt] at hv2
        obtain ⟨c, hc, hcp⟩ := List.mem_map.mp hv
        rw [hv2] at hcp
        exact hmem c hc hcp

/-- After setting a non-empty value, the filter just set is among the
children. -/
theorem mem_setHeaderPropertyFilter (f : AndFilter)
    (pf : PropertyStringFilter) (hinv : headerFilterInvariant f)
    (hne : pf.filterValue ≠ "") :
    FilterUnion.propertyString pf ∈ (setHeaderPropertyFilter f pf).children := by
  by_cases hmem : ∃ c ∈ f.children, c.propertyIdOpt = some pf.propertyId
  · rw [setHeaderPropertyFilter_replaces f pf hinv hne hmem]
    obtain ⟨c, hc, hcp⟩ := hmem
    exact List.mem_map.mpr ⟨c, hc, by simp [hcp]⟩
  · push_neg at hmem
    rw [setHeaderPropertyFilter_appends f pf hne hmem]
    simp

/-- After setting an empty value for a property id, no child carries
that property id (under the invariant). -/
theorem setHeaderPropertyFilter_empty_removes_all (f : AndFilter)
    (pf : PropertyStringFilter) (hinv : headerFilterInvariant f)
    (hempty : pf.filterValue = "") :
    ∀ c ∈ (setHeaderPropertyFilter f pf).children,
      c.propertyIdOpt ≠ some pf.propertyId := by
  intro c hc
  rw [setHeaderPropertyFilter_empty_deletes f pf hinv hempty] at hc
  have := List.of_mem_filter hc
  simpa using this

/-! ## Claim theorems (part 2) -/

/-- Claim C9: the internal header filter is always an `AndFilter` whose
children contain at most one `PropertyStringFilter` per `propertyId` and
none with an empty `filterValue`: the initial filter satisfies this
invariant, every setter call preserves it, and each call behaves by
case — an empty value deletes the entry for that property, a non-empty
value for an already-filtered property replaces its entry in place, and
a non-empty value for a new property appends one entry. -/
theorem headerFilter_invariant_and_cases :
    headerFilterInvariant initialInternalFilter ∧
    ∀ (f : AndFilter) (pf : PropertyStringFilter), headerFilterInvariant f →
      headerFilterInvariant (setHeaderPropertyFilter f pf) ∧
      (pf.filterValue = "" →
        (setHeaderPropertyFilter f pf).children
          = f.children.filter fun c => !(c.propertyIdOpt == some pf.propertyId)) ∧
      (pf.filterValue ≠ "" →
        ((∃ c ∈ f.children, c.propertyIdOpt = some pf.propertyId) →
          (setHeaderPropertyFilter f pf).children
            = f.children.map fun c =>
                if c.propertyIdOpt == some pf.propertyId
                then .propertyString pf else c) ∧
        ((∀ c ∈ f.children, c.propertyIdOpt ≠ some pf.propertyId) →
          (setHeaderPropertyFilter f pf).children
            = f.children ++ [.propertyString pf])) := by
  refine ⟨by decide, ?_⟩
  intro f pf hinv
  exact ⟨setHeaderPropertyFilter_preserves_invariant f pf hinv,
    fun hempty => setHeaderPropertyFilter_empty_deletes f pf hinv hempty,
    fun hne => ⟨fun hmem => setHeaderPropertyFilter_replaces f pf hinv hne hmem,
      fun hno => setHeaderPropertyFilter_appends f pf hne hno⟩⟩

/-- Concrete instance of the header-filter invariant claim: starting
from the empty internal filter, setting a non-empty value for a new
property preserves the invariant and appends one entry. -/
theorem headerFilter_invariant_and_cases_witness :
    headerFilterInvariant (setHeaderPropertyFilter ⟨[]⟩ ⟨"name", "x", .CONTAINS⟩) ∧
    (setHeaderPropertyFilter ⟨[]⟩ ⟨"name", "x", .CONTAINS⟩).children
      = [] ++ [.propertyString ⟨"name", "x", .CONTAINS⟩] :=
  ⟨(headerFilter_invariant_and_cases.2 ⟨[]⟩ ⟨"name", "x", .CONTAINS⟩ (by decide)).1,
   ((headerFilter_invariant_and_cases.2 ⟨[]⟩ ⟨"name", "x", .CONTAINS⟩
        (by decide)).2.2 (by decide)).2 (by decide)⟩

/-- Claim C4: applying the header filter for property `p` with a
non-empty value `v` and then triggering a data-provider request with no
experimental filter makes `service.list` receive the internal
`AndFilter`, whose children contain the `PropertyStringFilter` with
`propertyId` `p` and `filterValue` `v`; subsequently applying the empty
value for `p` removes that child before the next request. -/
theorem headerFilter_request_roundtrip {TItem : Type}
    (f : AndFilter) (p v : String) (m m' : Matcher)
    (s : AutoGridFilterState)
    (listFn : Pageable → Option FilterUnion → List TItem)
    (cacheSize : Option Nat) (params : GridDataProviderParams)
    (hinv : headerFilterInvariant f) (hv : v ≠ "") :
    (createDataProviderCall listFn
        (updateFilterEffect none (setHeaderPropertyFilter f ⟨p, v, m⟩) true
          s).dataProviderFilter
        cacheSize params).listCalls
      = [(dataProviderRequest params,
          some (FilterUnion.and (setHeaderPropertyFilter f ⟨p, v, m⟩).children))] ∧
    FilterUnion.propertyString ⟨p, v, m⟩
      ∈ (setHeaderPropertyFilter f ⟨p, v, m⟩).children ∧
    ∀ c ∈ (setHeaderPropertyFilter (setHeaderPropertyFilter f ⟨p, v, m⟩)
        ⟨p, "", m'⟩).children,
      c.propertyIdOpt ≠ some p := by
  refine ⟨rfl, ?_, ?_⟩
  · exact mem_setHeaderPropertyFilter f ⟨p, v, m⟩ hinv hv
  · exact setHeaderPropertyFilter_empty_removes_all _ ⟨p, "", m'⟩
      (setHeaderPropertyFilter_preserves_invariant f ⟨p, v, m⟩ hinv) rfl

/-- Concrete instance of the header-filter round trip: filter on
`firstName` with value `Jane` from the empty filter, observe the list
call, then clear the filter. -/
theorem headerFilter_request_roundtrip_witness :
    headerFilterInvariant (⟨[]⟩ : AndFilter) ∧
    ("Jane" ≠ "") ∧
    ((createDataProviderCall (fun _ _ => ([] : List Nat))
        (updateFilterEffect none
          (setHeaderPropertyFilter ⟨[]⟩ ⟨"firstName", "Jane", .CONTAINS⟩) true
          ⟨none, false⟩).dataProviderFilter
        none ⟨0, 10, []⟩).listCalls
      = [(dataProviderRequest ⟨0, 10, []⟩,
          some (FilterUnion.and
            (setHeaderPropertyFilter ⟨[]⟩
              ⟨"firstName", "Jane", .CONTAINS⟩).children))] ∧
     FilterUnion.propertyString ⟨"firstName", "Jane", .CONTAINS⟩
       ∈ (setHeaderPropertyFilter ⟨[]⟩ ⟨"firstName", "Jane", .CONTAINS⟩).children ∧
     ∀ c ∈ (setHeaderPropertyFilter
         (setHeaderPropertyFilter ⟨[]⟩ ⟨"firstName", "Jane", .CONTAINS⟩)
         ⟨"firstName", "", .CONTAINS⟩).children,
       c.propertyIdOpt ≠ some "firstName") :=
  ⟨by decide, by decide,
   headerFilter_request_roundtrip ⟨[]⟩ "firstName" "Jane" .CONTAINS .CONTAINS
     ⟨none, false⟩ (fun _ _ => ([] : List Nat)) none ⟨0, 10, []⟩
     (by decide) (by decide)⟩

/-- Claim C8: when the service returns fewer items than the page size,
the size reported to the grid is `pageNumber * pageSize + count`; when
it returns exactly `pageSize` items the reported size is
`(pageNumber + 1) * pageSize + 1`, except that when the grid's cached
size is defined and larger no size is reported at all — so a full page
never reports a defined size smaller than the cached size. -/
theorem createDataProvider_size_report {TItem : Type}
    (listFn : Pageable → Option FilterUnion → List TItem)
    (filterCurrent : Option FilterUnion) (cacheSize : Option Nat)
    (params : GridDataProviderParams) :
    ((listFn (dataProviderRequest params) filterCurrent).length < params.pageSize →
      (createDataProviderCall listFn filterCurrent cacheSize params).callbackSize
        = some (params.page * params.pageSize
            + (listFn (dataProviderRequest params) filterCurrent).length)) ∧
    ((listFn (dataProviderRequest params) filterCurrent).length = params.pageSize →
      (∀ cs, cacheSize = some cs →
        (params.page + 1) * params.pageSize + 1 < cs →
        (createDataProviderCall listFn filterCurrent cacheSize params).callbackSize
          = none) ∧
      ((∀ cs, cacheSize = some cs →
          ¬ (params.page + 1) * params.pageSize + 1 < cs) →
        (createDataProviderCall listFn filterCurrent cacheSize params).callbackSize
          = some ((params.page + 1) * params.pageSize + 1)) ∧
      (∀ sz cs,
        (createDataProviderCall listFn filterCurrent cacheSize params).callbackSize
          = some sz →
        cacheSize = some cs → cs ≤ sz)) := by
  have hres : (createDataProviderCall listFn filterCurrent cacheSize
      params).callbackSize
      = if (listFn (dataProviderRequest params) filterCurrent).length
            = params.pageSize then
          match cacheSize with
          | some cs =>
            if (params.page + 1) * params.pageSize + 1 < cs then none
            else some ((params.page + 1) * params.pageSize + 1)
          | none => some ((params.page + 1) * params.pageSize + 1)
        else
          some (params.page * params.pageSize
            + (listFn (dataProviderRequest params) filterCurrent).length) := rfl
  refine ⟨?_, ?_⟩
  · intro hlt
    rw [hres, if_neg (Nat.ne_of_lt hlt)]
  · intro heq
    refine ⟨?_, ?_, ?_⟩
    · intro cs hcs hlt
      rw [hres, if_pos heq, hcs]
      simp [hlt]
    · intro hnlt
      rw [hres, if_pos heq]
      cases hcs : cacheSize with
      | none => rfl
      | some cs => simp [hnlt cs hcs]
    · intro sz cs hsz hcs
      rw [hres, if_pos heq, hcs] at hsz
      by_cases hlt : (params.page + 1) * params.pageSize + 1 < cs
      · simp [hlt] at hsz
      · simp [hlt] at hsz
        omega

/-- Concrete instances of the size report: a short page on page 1 of
size 2 reports 3; a full page with no cached size reports 5; a full
page with a larger cached size (10) reports no size. -/
theorem createDataProvider_size_report_witness :
    (createDataProviderCall (fun _ _ => ([7] : List Nat)) none none
        ⟨1, 2, []⟩).callbackSize = some 3 ∧
    (createDataProviderCall (fun _ _ => ([7, 8] : List Nat)) none none
        ⟨1, 2, []⟩).callbackSize = some 5 ∧
    (createDataProviderCall (fun _ _ => ([7, 8] : List Nat)) none (some 10)
        ⟨1, 2, []⟩).callbackSize = none :=
  ⟨(createDataProvider_size_report (fun _ _ => ([7] : List Nat)) none none
      ⟨1, 2, []⟩).1 (by decide),
   ((createDataProvider_size_report (fun _ _ => ([7, 8] : List Nat)) none none
      ⟨1, 2, []⟩).2 (by decide)).2.1 (fun cs h => nomatch h),
   ((createDataProvider_size_report (fun _ _ => ([7, 8] : List Nat)) none
      (some 10) ⟨1, 2, []⟩).2 (by decide)).1 10 rfl (by decide)⟩

end Hilla
